import Mathlib

/-!
Shallow embedding of the WorkflowEngine repository (src/src/lib.rs,
src/src/main.rs): a `WorkflowEngineProcessor` holding a verbosity flag and a
`usize` counter, a `process` operation producing a `ProcessResult`, a
`get_stats` snapshot, and a `run` orchestration that resolves input, processes
it, serializes the result with serde_json's pretty printer and writes it to a
file or standard output.

Modelling choices:
* `usize` is `Nat` with arithmetic taken modulo `2 ^ 64` where the code can
  overflow (`processed_count += 1`).
* `chrono::Utc::now().to_rfc3339()` is an injected `now : String` parameter
  (the spec directs that the clock be treated as an injectable collaborator).
* File-system reads are an injected `fs : String → Option String` map; writes
  and prints are returned as a list of `OutputEvent`s.
* serde_json is external to the repository; its `Value` type, pretty printer,
  parser and the derived `Serialize`/`Deserialize` for `ProcessResult` are
  modelled here in the fragment this program exercises (objects, strings,
  booleans, non-negative integer numbers; no arrays, floats or `\u` escapes,
  which no value produced by this program contains).
-/

namespace WorkflowEngine

/-- serde_json values, restricted to the fragment this program produces:
null, booleans, non-negative integers, strings and objects. -/
inductive Json where
  | null : Json
  | bool (b : Bool) : Json
  | num (n : Nat) : Json
  | str (s : String) : Json
  | obj (fields : List (String × Json)) : Json

/-- The decimal digit character for `d < 10` (as Rust's integer formatting and
serde_json's integer printing emit). -/
def digitChar (d : Nat) : Char := Char.ofNat (48 + d)

/-- Standard decimal representation of a `Nat`, most significant digit first:
the characters Rust's `format!("{}", n)` and serde_json's integer
serialization produce for an unsigned integer. -/
def natChars (n : Nat) : List Char :=
  if _h : n < 10 then [digitChar n]
  else natChars (n / 10) ++ [digitChar (n % 10)]
decreasing_by exact Nat.div_lt_self (by omega) (by omega)

/-- Decimal representation as a `String`. -/
def natStr (n : Nat) : String := String.mk (natChars n)

/-- `ProcessResult` from src/src/lib.rs: `success: bool`, `message: String`,
`data: Option<serde_json::Value>`. -/
structure ProcessResult where
  success : Bool
  message : String
  data : Option Json

/-- `WorkflowEngineProcessor` from src/src/lib.rs: a verbosity flag and a
`usize` count of processed items. -/
structure WorkflowEngineProcessor where
  verbose : Bool
  processed_count : Nat
deriving DecidableEq

/-- One more than the largest `usize` value (the code runs on a 64-bit
target); `processed_count += 1` wraps at this bound. -/
def USIZE_LIMIT : Nat := 2 ^ 64

/-- `WorkflowEngineProcessor::new`: initializes `processed_count` to 0. -/
def WorkflowEngineProcessor.new (verbose : Bool) : WorkflowEngineProcessor :=
  { verbose := verbose, processed_count := 0 }

/-- `WorkflowEngineProcessor::process`: increments `processed_count`, then
builds a `ProcessResult` with `success = true`, a message embedding the new
count, and a data object holding the input's byte length, the injected clock
reading, and the new count as `item_number`. The `&mut self` receiver is made
explicit: the updated processor is returned alongside the result. -/
def WorkflowEngineProcessor.process (p : WorkflowEngineProcessor) (data : String)
    (now : String) : Except String (ProcessResult × WorkflowEngineProcessor) :=
  let count := (p.processed_count + 1) % USIZE_LIMIT
  let p' : WorkflowEngineProcessor := { p with processed_count := count }
  Except.ok
    ({ success := true
       message := "Successfully processed item #" ++ natStr count
       data := some (Json.obj
         [("length", Json.num data.utf8ByteSize),
          ("processed_at", Json.str now),
          ("item_number", Json.num count)]) }, p')

/-- `WorkflowEngineProcessor::get_stats`: a JSON snapshot of the counter and
the verbosity flag. The `&self` receiver is made explicit: the (unchanged)
processor is returned alongside the value. -/
def WorkflowEngineProcessor.get_stats (p : WorkflowEngineProcessor) :
    Json × WorkflowEngineProcessor :=
  (Json.obj
    [("processed_count", Json.num p.processed_count),
     ("verbose", Json.bool p.verbose)], p)

/-! ### serde_json serialization model -/

/-- The lowercase hexadecimal digit character for `d < 16`. -/
def hexDigitChar (d : Nat) : Char :=
  if d < 10 then digitChar d else Char.ofNat (97 + (d - 10))

/-- serde_json's escaping of one character inside a JSON string literal:
`"` and `\` and the named control escapes get a backslash form, other control
characters a `\u00XX` form, everything else is emitted unchanged. -/
def escapeChar (c : Char) : List Char :=
  if c = '"' then ['\\', '"']
  else if c = '\\' then ['\\', '\\']
  else if c = Char.ofNat 8 then ['\\', 'b']
  else if c = Char.ofNat 12 then ['\\', 'f']
  else if c = '\n' then ['\\', 'n']
  else if c = '\r' then ['\\', 'r']
  else if c = '\t' then ['\\', 't']
  else if c.toNat < 32 then
    ['\\', 'u', '0', '0', hexDigitChar (c.toNat / 16), hexDigitChar (c.toNat % 16)]
  else [c]

/-- Escape every character of a string body. -/
def escapeStr (s : List Char) : List Char := (s.map escapeChar).flatten

/-- The indentation serde_json's pretty printer emits at nesting depth `k`
(two spaces per level). -/
def indentChars (k : Nat) : List Char := List.replicate (2 * k) ' '

mutual

/-- serde_json's pretty printer (`to_string_pretty`) at nesting depth `k`:
objects open with a brace and a newline, print one member per line indented
two spaces deeper, and close with a newline, the current indentation and a
brace; an empty object prints as the two braces. -/
def printValue : Nat → Json → List Char
  | _, Json.null => ['n', 'u', 'l', 'l']
  | _, Json.bool true => ['t', 'r', 'u', 'e']
  | _, Json.bool false => ['f', 'a', 'l', 's', 'e']
  | _, Json.num n => natChars n
  | _, Json.str s => '"' :: (escapeStr s.data ++ ['"'])
  | _, Json.obj [] => ['{', '}']
  | k, Json.obj (f :: fs) =>
      '{' :: '\n' :: (printMembers (k + 1) f fs ++ '\n' :: (indentChars k ++ ['}']))
termination_by _ j => sizeOf j

/-- One `"key": value` member at indentation depth `k`. -/
def printMember : Nat → String × Json → List Char
  | k, (key, v) =>
      indentChars k ++ '"' :: (escapeStr key.data ++ '"' :: ':' :: ' ' :: printValue k v)
termination_by _ f => sizeOf f

/-- A nonempty member list, members separated by a comma and a newline. -/
def printMembers : Nat → String × Json → List (String × Json) → List Char
  | k, f, [] => printMember k f
  | k, f, g :: fs => printMember k f ++ ',' :: '\n' :: printMembers k g fs
termination_by _ f fs => sizeOf f + sizeOf fs

end

/-- `serde_json::to_string_pretty`. -/
def to_string_pretty (j : Json) : String := String.mk (printValue 0 j)

/-! ### serde_json parsing model -/

/-- JSON insignificant whitespace. -/
def isWsChar (c : Char) : Bool := c = ' ' || c = '\n' || c = '\t' || c = '\r'

/-- Drop leading insignificant whitespace. -/
def skipWs : List Char → List Char
  | [] => []
  | c :: cs => if isWsChar c then skipWs cs else c :: cs

/-- Whether `c` is a decimal digit. -/
def isDigitChar (c : Char) : Bool := 48 ≤ c.toNat && c.toNat ≤ 57

/-- The numeric value of a decimal digit character. -/
def digitVal (c : Char) : Nat := c.toNat - 48

/-- Consume a maximal run of decimal digits, extending the already-read
value `acc`. -/
def parseDigits : Nat → List Char → Nat × List Char
  | acc, [] => (acc, [])
  | acc, c :: cs =>
      if isDigitChar c then parseDigits (10 * acc + digitVal c) cs else (acc, c :: cs)

/-- Decode one character escape (the character after a backslash). `\uXXXX`
escapes are not modelled: serde_json never produces them for the strings this
program emits. -/
def unescapeChar (c : Char) : Option Char :=
  if c = '"' then some '"'
  else if c = '\\' then some '\\'
  else if c = '/' then some '/'
  else if c = 'b' then some (Char.ofNat 8)
  else if c = 'f' then some (Char.ofNat 12)
  else if c = 'n' then some '\n'
  else if c = 'r' then some '\r'
  else if c = 't' then some '\t'
  else none

/-- Parse a JSON string body (the opening quote already consumed) up to and
including the closing quote; raw control characters are rejected, as
serde_json rejects them. -/
def parseStringBody : List Char → Option (List Char × List Char)
  | [] => none
  | c :: cs =>
      if c = '"' then some ([], cs)
      else if c = '\\' then
        match cs with
        | [] => none
        | e :: cs' =>
            match unescapeChar e with
            | none => none
            | some d => (parseStringBody cs').map fun p => (d :: p.1, p.2)
      else if c.toNat < 32 then none
      else (parseStringBody cs).map fun p => (c :: p.1, p.2)

mutual

/-- Recursive-descent JSON value parser (the fragment this program's output
uses: null, booleans, unsigned integers, strings, objects). The `fuel`
argument only bounds recursion depth so the function is total; any fuel
exceeding the input's nesting gives the parser's true answer. -/
def parseValue : Nat → List Char → Option (Json × List Char)
  | 0, _ => none
  | fuel + 1, cs =>
      match skipWs cs with
      | [] => none
      | c :: cs' =>
          if c = 'n' then
            match cs' with
            | 'u' :: 'l' :: 'l' :: rest => some (Json.null, rest)
            | _ => none
          else if c = 't' then
            match cs' with
            | 'r' :: 'u' :: 'e' :: rest => some (Json.bool true, rest)
            | _ => none
          else if c = 'f' then
            match cs' with
            | 'a' :: 'l' :: 's' :: 'e' :: rest => some (Json.bool false, rest)
            | _ => none
          else if c = '"' then
            (parseStringBody cs').map fun p => (Json.str (String.mk p.1), p.2)
          else if c = '{' then
            match skipWs cs' with
            | '}' :: rest => some (Json.obj [], rest)
            | _ => (parseMembers fuel cs').map fun p => (Json.obj p.1, p.2)
          else if isDigitChar c then
            let p := parseDigits (digitVal c) cs'
            some (Json.num p.1, p.2)
          else none

/-- Parse a nonempty object member list up to and including the closing
brace. -/
def parseMembers : Nat → List Char → Option (List (String × Json) × List Char)
  | 0, _ => none
  | fuel + 1, cs =>
      match skipWs cs with
      | '"' :: cs1 =>
          match parseStringBody cs1 with
          | none => none
          | some (key, cs2) =>
              match skipWs cs2 with
              | ':' :: cs3 =>
                  match parseValue fuel cs3 with
                  | none => none
                  | some (v, cs4) =>
                      match skipWs cs4 with
                      | ',' :: cs5 =>
                          (parseMembers fuel cs5).map fun p =>
                            ((String.mk key, v) :: p.1, p.2)
                      | '}' :: cs5 => some ([(String.mk key, v)], cs5)
                      | _ => none
              | _ => none
      | _ => none

end

/-- `serde_json::from_str` to a `Value`: parse one JSON value and require
only whitespace after it. -/
def parseJsonText (s : String) : Except String Json :=
  match parseValue (s.data.length + 1) s.data with
  | none => Except.error "invalid JSON"
  | some (j, rest) =>
      if skipWs rest = [] then Except.ok j else Except.error "trailing characters"

/-! ### Derived Serialize/Deserialize for ProcessResult -/

/-- The derived `Serialize` for `ProcessResult`: an object with the three
fields in declaration order; a `None` data field serializes as `null`. -/
def ProcessResult.toJson (r : ProcessResult) : Json :=
  Json.obj
    [("success", Json.bool r.success),
     ("message", Json.str r.message),
     ("data", match r.data with | some v => v | none => Json.null)]

/-- First field of the given name in an object member list. -/
def lookupField (fields : List (String × Json)) (key : String) : Option Json :=
  match fields with
  | [] => none
  | (k, v) :: rest => if k = key then some v else lookupField rest key

/-- The derived `Deserialize` for `ProcessResult`: requires a boolean
`success` and a string `message`; the `Option` field `data` is `None` when
absent or `null`, otherwise the value itself. -/
def ProcessResult.fromJson (j : Json) : Except String ProcessResult :=
  match j with
  | Json.obj fields =>
      match lookupField fields "success" with
      | some (Json.bool b) =>
          match lookupField fields "message" with
          | some (Json.str m) =>
              let d : Option Json :=
                match lookupField fields "data" with
                | none => none
                | some Json.null => none
                | some v => some v
              Except.ok { success := b, message := m, data := d }
          | _ => Except.error "invalid message field"
      | _ => Except.error "invalid success field"
  | _ => Except.error "expected object"

/-- `serde_json::from_str::<ProcessResult>`. -/
def ProcessResult.from_str (s : String) : Except String ProcessResult :=
  match parseJsonText s with
  | Except.error e => Except.error e
  | Except.ok j => ProcessResult.fromJson j

/-! ### The run orchestration -/

/-- An observable output action of `run`: a file write (full overwrite) or
text sent to standard output. -/
inductive OutputEvent where
  | fileWrite (path content : String) : OutputEvent
  | stdoutWrite (text : String) : OutputEvent

/-- The fixed default input text `run` uses when no input path is given. -/
def defaultInputText : String := "Sample data for processing"

/-- Input resolution in `run`: read the file at the given path through the
injected file system (an error when it cannot be read), or fall back to the
default literal. -/
def resolveInput (input : Option String) (fs : String → Option String) :
    Except String String :=
  match input with
  | some path =>
      match fs path with
      | some text => Except.ok text
      | none => Except.error ("could not read " ++ path)
  | none => Except.ok defaultInputText

/-- `run` from src/src/lib.rs. Logging goes to standard error through the
`log` facade and is outside the modelled I/O. The returned list holds the
output actions performed, in order: on the happy path exactly one file write
of the pretty-printed result, or one stdout write of it followed by
`println!`'s newline; on an input-read failure the error is returned and no
output action is performed. -/
def run (verbose : Bool) (input output : Option String) (fs : String → Option String)
    (now : String) : Except String Unit × List OutputEvent :=
  let processor := WorkflowEngineProcessor.new verbose
  match resolveInput input fs with
  | Except.error e => (Except.error e, [])
  | Except.ok input_data =>
      match processor.process input_data now with
      | Except.error e => (Except.error e, [])
      | Except.ok (result, processor') =>
          let output_json := to_string_pretty result.toJson
          let events :=
            match output with
            | some path => [OutputEvent.fileWrite path output_json]
            | none => [OutputEvent.stdoutWrite (output_json ++ "\n")]
          let _stats := processor'.get_stats
          (Except.ok (), events)

/-- `N` sequential calls to `process` on one processor, with per-call input
and clock reading; errors abort the sequence (none occur). Returns the list
of results in call order and the final processor. -/
def runCalls (p : WorkflowEngineProcessor) :
    List (String × String) → Except String (List ProcessResult × WorkflowEngineProcessor)
  | [] => Except.ok ([], p)
  | (data, now) :: rest =>
      match p.process data now with
      | Except.error e => Except.error e
      | Except.ok (r, p') =>
          match runCalls p' rest with
          | Except.error e => Except.error e
          | Except.ok (rs, p'') => Except.ok (r :: rs, p'')

/-! ### Basic lemmas -/

theorem mk_data (s : String) : String.mk s.data = s := rfl

/-- C3: For every string input, `process` returns `Ok` (it never returns an
error) and the returned `ProcessResult` has `success = true`; `process` is
total over all string inputs. -/
theorem claim_process_total (p : WorkflowEngineProcessor) (data now : String) :
    ∃ r p', p.process data now = Except.ok (r, p') ∧ r.success = true := by
  refine ⟨_, _, rfl, rfl⟩

/-- C4: For every string input `data`, the `data.length` field of the
`ProcessResult` returned by `process` equals the byte length of `data`; in
particular for input `"hello"` it is 5 and for the empty string it is 0. -/
theorem claim_length_byte_count :
    (∀ (p : WorkflowEngineProcessor) (data now : String), ∃ r p' ts n,
        p.process data now = Except.ok (r, p') ∧
        r.data = some (Json.obj
          [("length", Json.num data.utf8ByteSize),
           ("processed_at", ts), ("item_number", n)]))
    ∧ (∀ (p : WorkflowEngineProcessor) (now : String), ∃ r p' ts n,
        p.process "hello" now = Except.ok (r, p') ∧
        r.data = some (Json.obj
          [("length", Json.num 5), ("processed_at", ts), ("item_number", n)]))
    ∧ (∀ (p : WorkflowEngineProcessor) (now : String), ∃ r p' ts n,
        p.process "" now = Except.ok (r, p') ∧
        r.data = some (Json.obj
          [("length", Json.num 0), ("processed_at", ts), ("item_number", n)])) :=
  ⟨fun _ _ _ => ⟨_, _, _, _, rfl, rfl⟩,
   fun _ _ => ⟨_, _, _, _, rfl, rfl⟩,
   fun _ _ => ⟨_, _, _, _, rfl, rfl⟩⟩

/-- C7: `get_stats` does not mutate the processor, no matter how many times
it is called, and before any `process` call it reports `processed_count = 0`
and the `verbose` flag exactly as passed to `new`. -/
theorem claim_get_stats_readonly :
    (∀ p : WorkflowEngineProcessor, p.get_stats.2 = p)
    ∧ (∀ (p : WorkflowEngineProcessor) (n : Nat),
        (fun q : WorkflowEngineProcessor => q.get_stats.2)^[n] p = p)
    ∧ (∀ v : Bool, (WorkflowEngineProcessor.new v).get_stats.1 =
        Json.obj [("processed_count", Json.num 0), ("verbose", Json.bool v)]) :=
  ⟨fun _ => rfl, fun _ n => Function.iterate_fixed rfl n, fun _ => rfl⟩

/-- C9: the `verbose` flag does not influence the result of `process` or the
resulting count: two processors differing only in `verbose`, run on the same
input and clock reading, produce the same `ProcessResult` and the same new
`processed_count`. -/
theorem claim_verbose_noninterference (c : Nat) (data now : String) :
    (WorkflowEngineProcessor.process ⟨true, c⟩ data now).map
        (fun x => (x.1, x.2.processed_count)) =
      (WorkflowEngineProcessor.process ⟨false, c⟩ data now).map
        (fun x => (x.1, x.2.processed_count)) := rfl

/-- C10: every `ProcessResult` returned by `process` has a present `data`
field, and the item number embedded in the `message` string equals the
`item_number` field of the same result. -/
theorem claim_message_item_number (p : WorkflowEngineProcessor) (data now : String) :
    ∃ r p' len ts n, p.process data now = Except.ok (r, p') ∧
      r.data = some (Json.obj
        [("length", len), ("processed_at", ts), ("item_number", Json.num n)]) ∧
      r.message = "Successfully processed item #" ++ natStr n :=
  ⟨_, _, _, _, _, rfl, rfl, rfl⟩

/-! ### Sequential calls -/

/-- The `ProcessResult` that `process` builds when the incremented count
is `n`. -/
def resultFor (n : Nat) (data now : String) : ProcessResult :=
  { success := true
    message := "Successfully processed item #" ++ natStr n
    data := some (Json.obj
      [("length", Json.num data.utf8ByteSize),
       ("processed_at", Json.str now),
       ("item_number", Json.num n)]) }

/-- The results a call sequence produces when the counter starts at `c`. -/
def expectedResults (c : Nat) : List (String × String) → List ProcessResult
  | [] => []
  | (data, now) :: rest => resultFor (c + 1) data now :: expectedResults (c + 1) rest

theorem process_eq (p : WorkflowEngineProcessor) (data now : String)
    (h : p.processed_count + 1 < USIZE_LIMIT) :
    p.process data now =
      Except.ok (resultFor (p.processed_count + 1) data now,
        ⟨p.verbose, p.processed_count + 1⟩) := by
  simp [WorkflowEngineProcessor.process, resultFor, Nat.mod_eq_of_lt h]

theorem expectedResults_length (c : Nat) (calls : List (String × String)) :
    (expectedResults c calls).length = calls.length := by
  induction calls generalizing c with
  | nil => rfl
  | cons a rest ih => obtain ⟨data, now⟩ := a; simp [expectedResults, ih]

theorem expectedResults_getLast (c : Nat) (calls : List (String × String))
    (h : calls ≠ []) :
    ∃ data now, (expectedResults c calls).getLast? =
      some (resultFor (c + calls.length) data now) := by
  induction calls generalizing c with
  | nil => exact absurd rfl h
  | cons a rest ih =>
    obtain ⟨data, now⟩ := a
    cases rest with
    | nil => exact ⟨data, now, rfl⟩
    | cons b rest' =>
      obtain ⟨db, nb⟩ := b
      obtain ⟨data', now', hlast⟩ := ih (c + 1) (by simp)
      refine ⟨data', now', ?_⟩
      rw [expectedResults] at hlast
      rw [expectedResults, expectedResults, List.getLast?_cons_cons, hlast]
      have harith : c + 1 + (rest'.length + 1) = c + (rest'.length + 1 + 1) := by omega
      simp only [List.length_cons] at harith ⊢
      rw [harith]

theorem runCalls_spec (calls : List (String × String)) (p : WorkflowEngineProcessor)
    (h : p.processed_count + calls.length < USIZE_LIMIT) :
    runCalls p calls = Except.ok (expectedResults p.processed_count calls,
      ⟨p.verbose, p.processed_count + calls.length⟩) := by
  induction calls generalizing p with
  | nil => simp [runCalls, expectedResults]
  | cons a rest ih =>
    obtain ⟨data, now⟩ := a
    simp only [runCalls,
      process_eq p data now (show p.processed_count + 1 < USIZE_LIMIT by simp at h; omega)]
    rw [ih ⟨p.verbose, p.processed_count + 1⟩
      (show p.processed_count + 1 + rest.length < USIZE_LIMIT by simp at h; omega)]
    simp [expectedResults]
    omega

/-- C1: from a processor built by `new` (count 0), every call to `process`
increments `processed_count` by exactly 1 and never decreases it, and after
`N` successful calls `processed_count` equals `N`. (`usize` arithmetic wraps
at `2 ^ 64`, so the counts are required to stay below that bound.) -/
theorem claim_processed_count_invariant :
    (∀ (v : Bool) (calls : List (String × String)), calls.length < USIZE_LIMIT →
      ∃ rs p', runCalls (WorkflowEngineProcessor.new v) calls = Except.ok (rs, p') ∧
        p'.processed_count = calls.length)
    ∧ (∀ (p : WorkflowEngineProcessor) (data now : String),
        p.processed_count + 1 < USIZE_LIMIT →
        ∃ r p', p.process data now = Except.ok (r, p') ∧
          p'.processed_count = p.processed_count + 1 ∧
          p.processed_count < p'.processed_count) := by
  constructor
  · intro v calls h
    exact ⟨_, _, runCalls_spec calls (WorkflowEngineProcessor.new v)
        (show 0 + calls.length < USIZE_LIMIT by omega),
      by simp [WorkflowEngineProcessor.new]⟩
  · intro p data now h
    exact ⟨_, _, process_eq p data now h, rfl, Nat.lt_succ_self _⟩

theorem claim_processed_count_invariant_witness :
    (∃ rs p', runCalls (WorkflowEngineProcessor.new false) [("a", "t"), ("b", "u")] =
        Except.ok (rs, p') ∧ p'.processed_count = 2)
    ∧ (∃ r p', (WorkflowEngineProcessor.new true).process "x" "t" = Except.ok (r, p') ∧
        p'.processed_count = (WorkflowEngineProcessor.new true).processed_count + 1 ∧
        (WorkflowEngineProcessor.new true).processed_count < p'.processed_count) :=
  ⟨claim_processed_count_invariant.1 false [("a", "t"), ("b", "u")]
      (by norm_num [USIZE_LIMIT]),
   claim_processed_count_invariant.2 (WorkflowEngineProcessor.new true) "x" "t"
      (by norm_num [USIZE_LIMIT, WorkflowEngineProcessor.new])⟩

/-- C2: after `N` sequential calls to `process` on one processor, the result
of the `N`-th call has `item_number = N` and message
`"Successfully processed item #"` followed by `N`, and `get_stats` then
reports `processed_count = N`. -/
theorem claim_nth_result (v : Bool) (calls : List (String × String))
    (hne : calls ≠ []) (hlen : calls.length < USIZE_LIMIT) :
    ∃ rs p' r, runCalls (WorkflowEngineProcessor.new v) calls = Except.ok (rs, p') ∧
      rs.length = calls.length ∧
      rs.getLast? = some r ∧
      r.message = "Successfully processed item #" ++ natStr calls.length ∧
      (∃ len ts, r.data = some (Json.obj
        [("length", len), ("processed_at", ts),
         ("item_number", Json.num calls.length)])) ∧
      p'.get_stats.1 = Json.obj
        [("processed_count", Json.num calls.length), ("verbose", Json.bool v)] := by
  obtain ⟨data, now, hlast⟩ := expectedResults_getLast 0 calls hne
  refine ⟨_, _, _, runCalls_spec calls (WorkflowEngineProcessor.new v)
      (show 0 + calls.length < USIZE_LIMIT by omega),
    expectedResults_length 0 calls, by simpa using hlast, ?_, ?_, ?_⟩
  · rfl
  · exact ⟨_, _, rfl⟩
  · simp [WorkflowEngineProcessor.get_stats, WorkflowEngineProcessor.new]

theorem claim_nth_result_witness :
    ∃ rs p' r, runCalls (WorkflowEngineProcessor.new false) [("a", "t")] =
        Except.ok (rs, p') ∧
      rs.length = 1 ∧
      rs.getLast? = some r ∧
      r.message = "Successfully processed item #" ++ natStr 1 ∧
      (∃ len ts, r.data = some (Json.obj
        [("length", len), ("processed_at", ts), ("item_number", Json.num 1)])) ∧
      p'.get_stats.1 = Json.obj
        [("processed_count", Json.num 1), ("verbose", Json.bool false)] :=
  claim_nth_result false [("a", "t")] (by simp) (by norm_num [USIZE_LIMIT])

/-- C5: if the input path cannot be read, `run` returns the I/O error and
performs no output action: no file write and no stdout write. -/
theorem claim_missing_input_no_output (v : Bool) (out : Option String)
    (fs : String → Option String) (now path : String) (h : fs path = none) :
    ∃ e, run v (some path) out fs now = (Except.error e, []) := by
  refine ⟨"could not read " ++ path, ?_⟩
  simp [run, resolveInput, h]

theorem claim_missing_input_no_output_witness :
    ∃ e, run false (some "input.txt") (some "out.json") (fun _ => none) "now"
      = (Except.error e, []) :=
  claim_missing_input_no_output false (some "out.json") (fun _ => none) "now"
    "input.txt" rfl

/-- C6: `run` with no input path, no output path and `verbose = false`
succeeds, processes the fixed default literal input, and performs exactly one
output action: the pretty-printed result record (which has `success = true`
and `item_number = 1`) written to standard output followed by a newline. -/
theorem claim_default_run_stdout (fs : String → Option String) (now : String) :
    ∃ r p',
      (WorkflowEngineProcessor.new false).process defaultInputText now =
        Except.ok (r, p') ∧
      run false none none fs now =
        (Except.ok (), [OutputEvent.stdoutWrite (to_string_pretty r.toJson ++ "\n")]) ∧
      r.success = true ∧
      (∃ len ts, r.data = some (Json.obj
        [("length", len), ("processed_at", ts), ("item_number", Json.num 1)])) := by
  refine ⟨_, _, rfl, rfl, rfl, _, _, rfl⟩

/-! ### Round-trip lemmas: characters and whitespace -/

/-- A character that serde_json's string printer emits unchanged and its
parser reads back unchanged: not a quote, not a backslash, not a control
character. Every character this program puts into a JSON string that is not
under its caller's control satisfies this. -/
def SafeChar (c : Char) : Prop := c ≠ '"' ∧ c ≠ '\\' ∧ 32 ≤ c.toNat

instance (c : Char) : Decidable (SafeChar c) :=
  inferInstanceAs (Decidable (c ≠ '"' ∧ c ≠ '\\' ∧ 32 ≤ c.toNat))

theorem skipWs_ws (c : Char) (cs : List Char) (h : isWsChar c = true) :
    skipWs (c :: cs) = skipWs cs := by
  rw [skipWs, if_pos h]

theorem skipWs_not (c : Char) (cs : List Char) (h : isWsChar c = false) :
    skipWs (c :: cs) = c :: cs := by
  rw [skipWs, if_neg (by simp [h])]

theorem skipWs_replicate (m : Nat) (cs : List Char) :
    skipWs (List.replicate m ' ' ++ cs) = skipWs cs := by
  induction m with
  | zero => rfl
  | succ n ih => simp [List.replicate_succ, skipWs, isWsChar, ih]

theorem skipWs_indent (k : Nat) (cs : List Char) :
    skipWs (indentChars k ++ cs) = skipWs cs :=
  skipWs_replicate (2 * k) cs

theorem escapeChar_safe (c : Char) (h : SafeChar c) : escapeChar c = [c] := by
  obtain ⟨h1, h2, h3⟩ := h
  have h8 : c ≠ Char.ofNat 8 := fun he => by subst he; exact absurd h3 (by decide)
  have h12 : c ≠ Char.ofNat 12 := fun he => by subst he; exact absurd h3 (by decide)
  have hn : c ≠ '\n' := fun he => by subst he; exact absurd h3 (by decide)
  have hr : c ≠ '\r' := fun he => by subst he; exact absurd h3 (by decide)
  have ht : c ≠ '\t' := fun he => by subst he; exact absurd h3 (by decide)
  simp [escapeChar, h1, h2, h8, h12, hn, hr, ht, show ¬ c.toNat < 32 by omega]

theorem escapeStr_safe (s : List Char) (h : ∀ c ∈ s, SafeChar c) :
    escapeStr s = s := by
  induction s with
  | nil => rfl
  | cons c cs ih =>
    have hc := escapeChar_safe c (h c (by simp))
    have := ih (fun x hx => h x (by simp [hx]))
    simp [escapeStr] at this ⊢
    simp [hc, this]

theorem parseStringBody_quote (rest : List Char) :
    parseStringBody ('"' :: rest) = some ([], rest) := by
  conv_lhs => rw [parseStringBody.eq_def]
  simp

theorem parseStringBody_other (c : Char) (x : List Char) (h1 : c ≠ '"')
    (h2 : c ≠ '\\') (h3 : ¬ c.toNat < 32) :
    parseStringBody (c :: x) = (parseStringBody x).map fun p => (c :: p.1, p.2) := by
  conv_lhs => rw [parseStringBody.eq_def]
  simp [h1, h2, h3]

theorem parseStringBody_safe (s rest : List Char) (h : ∀ c ∈ s, SafeChar c) :
    parseStringBody (s ++ '"' :: rest) = some (s, rest) := by
  induction s with
  | nil => rw [List.nil_append, parseStringBody_quote]
  | cons c cs ih =>
    obtain ⟨h1, h2, h3⟩ := h c (by simp)
    have hrec := ih (fun x hx => h x (by simp [hx]))
    rw [List.cons_append,
      parseStringBody_other c _ h1 h2 (show ¬ c.toNat < 32 by omega), hrec]
    rfl

/-! ### Round-trip lemmas: decimal numbers -/

theorem digitChar_spec (d : Nat) (h : d < 10) :
    isDigitChar (digitChar d) = true ∧ SafeChar (digitChar d) ∧
      digitVal (digitChar d) = d := by
  interval_cases d <;> exact ⟨rfl, by decide, rfl⟩

theorem natChars_props (n : Nat) :
    natChars n ≠ [] ∧ ∀ c ∈ natChars n, isDigitChar c = true ∧ SafeChar c := by
  induction n using Nat.strong_induction_on with
  | _ n ih =>
    rw [natChars]
    split
    · rename_i h
      refine ⟨by simp, ?_⟩
      intro c hc
      simp at hc
      subst hc
      exact ⟨(digitChar_spec n h).1, (digitChar_spec n h).2.1⟩
    · rename_i h
      push_neg at h
      refine ⟨by simp, ?_⟩
      intro c hc
      simp at hc
      rcases hc with hc | hc
      · exact (ih (n / 10) (Nat.div_lt_self (by omega) (by omega))).2 c hc
      · subst hc
        exact ⟨(digitChar_spec (n % 10) (Nat.mod_lt n (by omega))).1,
          (digitChar_spec (n % 10) (Nat.mod_lt n (by omega))).2.1⟩

theorem natChars_foldl (n acc : Nat) :
    (natChars n).foldl (fun a c => 10 * a + digitVal c) acc =
      acc * 10 ^ (natChars n).length + n := by
  induction n using Nat.strong_induction_on generalizing acc with
  | _ n ih =>
    rw [natChars]
    split
    · rename_i h
      simp [(digitChar_spec n h).2.2]
      omega
    · rename_i h
      push_neg at h
      rw [List.foldl_append, ih (n / 10) (Nat.div_lt_self (by omega) (by omega)) acc]
      simp [(digitChar_spec (n % 10) (Nat.mod_lt n (by omega))).2.2]
      have hdm : 10 * (n / 10) + n % 10 = n := Nat.div_add_mod n 10
      rw [pow_succ]
      calc 10 * (acc * 10 ^ (natChars (n / 10)).length + n / 10) + n % 10
          = acc * (10 ^ (natChars (n / 10)).length * 10) +
              (10 * (n / 10) + n % 10) := by ring
        _ = acc * (10 ^ (natChars (n / 10)).length * 10) + n := by rw [hdm]

/-- Whether the first character (if any) is not a digit: the condition under
which a maximal-munch number parse stops exactly at `rest`. -/
def noLeadDigit : List Char → Bool
  | [] => true
  | c :: _ => !isDigitChar c

theorem parseDigits_append (ds : List Char) (hds : ∀ c ∈ ds, isDigitChar c = true)
    (rest : List Char) (hrest : noLeadDigit rest = true) (acc : Nat) :
    parseDigits acc (ds ++ rest) =
      (ds.foldl (fun a c => 10 * a + digitVal c) acc, rest) := by
  induction ds generalizing acc with
  | nil =>
    cases rest with
    | nil => rfl
    | cons c t =>
      simp [noLeadDigit] at hrest
      simp [parseDigits, hrest]
  | cons c t ih =>
    have hc := hds c (by simp)
    simp [parseDigits, hc, ih (fun x hx => hds x (by simp [hx]))]

theorem parseDigits_natChars (n : Nat) (rest : List Char)
    (hrest : noLeadDigit rest = true) :
    parseDigits 0 (natChars n ++ rest) = (n, rest) := by
  rw [parseDigits_append (natChars n) (fun c hc => ((natChars_props n).2 c hc).1)
    rest hrest 0, natChars_foldl]
  simp

/-! ### Round-trip lemmas: parser steps -/

theorem digit_facts (c : Char) (h : isDigitChar c = true) :
    c ≠ 'n' ∧ c ≠ 't' ∧ c ≠ 'f' ∧ c ≠ '"' ∧ c ≠ '{' ∧ isWsChar c = false := by
  have hsp : c ≠ ' ' := fun he => by subst he; revert h; decide
  have hnl : c ≠ '\n' := fun he => by subst he; revert h; decide
  have htb : c ≠ '\t' := fun he => by subst he; revert h; decide
  have hcr : c ≠ '\r' := fun he => by subst he; revert h; decide
  refine ⟨fun he => by subst he; revert h; decide,
    fun he => by subst he; revert h; decide,
    fun he => by subst he; revert h; decide,
    fun he => by subst he; revert h; decide,
    fun he => by subst he; revert h; decide, ?_⟩
  simp [isWsChar, hsp, hnl, htb, hcr]

theorem parseValue_step_true (f : Nat) (cs rest : List Char)
    (hcs : skipWs cs = 't' :: 'r' :: 'u' :: 'e' :: rest) :
    parseValue (f + 1) cs = some (Json.bool true, rest) := by
  simp only [parseValue]
  rw [hcs]
  simp

theorem parseValue_step_str (f : Nat) (cs : List Char) (s rest : List Char)
    (hs : ∀ c ∈ s, SafeChar c)
    (hcs : skipWs cs = '"' :: (s ++ '"' :: rest)) :
    parseValue (f + 1) cs = some (Json.str (String.mk s), rest) := by
  simp only [parseValue]
  rw [hcs]
  simp [parseStringBody_safe s rest hs]

theorem parseValue_step_num (f : Nat) (cs : List Char) (n : Nat) (rest : List Char)
    (hcs : skipWs cs = natChars n ++ rest) (hrest : noLeadDigit rest = true) :
    parseValue (f + 1) cs = some (Json.num n, rest) := by
  obtain ⟨c, ds, hsplit⟩ : ∃ c ds, natChars n = c :: ds := by
    cases hnc : natChars n with
    | nil => exact absurd hnc (natChars_props n).1
    | cons c ds => exact ⟨c, ds, rfl⟩
  have hdig : isDigitChar c = true := ((natChars_props n).2 c (by rw [hsplit]; simp)).1
  obtain ⟨hn, ht, hf, hq, hb, hw⟩ := digit_facts c hdig
  have hpd : parseDigits (digitVal c) (ds ++ rest) = (n, rest) := by
    have h0 := parseDigits_natChars n rest hrest
    rw [hsplit, List.cons_append, parseDigits, if_pos hdig] at h0
    simpa using h0
  simp only [parseValue]
  rw [hcs, hsplit, List.cons_append]
  simp [hn, ht, hf, hq, hb, hdig, hpd]

theorem parseValue_step_obj (f : Nat) (cs cs' t rest : List Char)
    (ms : List (String × Json))
    (hcs : skipWs cs = '{' :: cs')
    (hhead : skipWs cs' = '"' :: t)
    (hms : parseMembers f cs' = some (ms, rest)) :
    parseValue (f + 1) cs = some (Json.obj ms, rest) := by
  simp only [parseValue]
  rw [hcs]
  simp [hhead, hms]

theorem parseMembers_step_cons (f : Nat) (cs cs1 key cs2 cs3 cs4 cs5 rest : List Char)
    (v : Json) (ms : List (String × Json))
    (hcs : skipWs cs = '"' :: cs1)
    (hkey : parseStringBody cs1 = some (key, cs2))
    (hcolon : skipWs cs2 = ':' :: cs3)
    (hval : parseValue f cs3 = some (v, cs4))
    (hcomma : skipWs cs4 = ',' :: cs5)
    (hnext : parseMembers f cs5 = some (ms, rest)) :
    parseMembers (f + 1) cs = some ((String.mk key, v) :: ms, rest) := by
  simp only [parseMembers]
  rw [hcs]
  simp [hkey, hcolon, hval, hcomma, hnext]

theorem parseMembers_step_last (f : Nat) (cs cs1 key cs2 cs3 cs4 rest : List Char)
    (v : Json)
    (hcs : skipWs cs = '"' :: cs1)
    (hkey : parseStringBody cs1 = some (key, cs2))
    (hcolon : skipWs cs2 = ':' :: cs3)
    (hval : parseValue f cs3 = some (v, cs4))
    (hclose : skipWs cs4 = '}' :: rest) :
    parseMembers (f + 1) cs = some ([(String.mk key, v)], rest) := by
  simp only [parseMembers]
  rw [hcs]
  simp [hkey, hcolon, hval, hclose]

/-! ### Round-trip lemmas: printed members -/

/-- The shape of one printed member followed by the rest of the text:
indentation, the quoted key, a colon, a space, then the printed value
(`payload`) and whatever follows it (`tail`). -/
def memberText (k : Nat) (key : String) (payload tail : List Char) : List Char :=
  indentChars k ++ '"' :: (key.data ++ '"' :: ':' :: ' ' :: (payload ++ tail))

theorem skipWs_memberText (k : Nat) (key : String) (payload tail : List Char) :
    skipWs ('\n' :: memberText k key payload tail) =
      '"' :: (key.data ++ '"' :: ':' :: ' ' :: (payload ++ tail)) := by
  rw [skipWs_ws '\n' _ rfl, memberText, skipWs_indent, skipWs_not '"' _ rfl]

theorem skipWs_close (k : Nat) (rest : List Char) :
    skipWs ('\n' :: (indentChars k ++ '}' :: rest)) = '}' :: rest := by
  rw [skipWs_ws '\n' _ rfl, skipWs_indent, skipWs_not '}' _ rfl]

/-- `parseValue` at positive fuel only looks at the whitespace-stripped
input. -/
theorem parseValue_skipWs (f : Nat) (cs cs' : List Char)
    (h : skipWs cs = skipWs cs') :
    parseValue (f + 1) cs = parseValue (f + 1) cs' := by
  simp only [parseValue]
  rw [h]

theorem parseMembers_text_cons (f k : Nat) (key : String)
    (hkey : ∀ c ∈ key.data, SafeChar c) (v : Json)
    (payload X rest : List Char) (ms : List (String × Json))
    (hv : parseValue f (' ' :: (payload ++ ',' :: '\n' :: X)) =
      some (v, ',' :: '\n' :: X))
    (hnext : parseMembers f ('\n' :: X) = some (ms, rest)) :
    parseMembers (f + 1) ('\n' :: memberText k key payload (',' :: '\n' :: X)) =
      some ((key, v) :: ms, rest) :=
  parseMembers_step_cons f _ _ _ _ _ _ _ _ _ _
    (skipWs_memberText k key payload _)
    (parseStringBody_safe _ _ hkey)
    (skipWs_not ':' _ rfl) hv (skipWs_not ',' _ rfl) hnext

theorem parseMembers_text_last (f k kcl : Nat) (key : String)
    (hkey : ∀ c ∈ key.data, SafeChar c) (v : Json)
    (payload rest : List Char)
    (hv : parseValue f (' ' :: (payload ++ '\n' :: (indentChars kcl ++ '}' :: rest))) =
      some (v, '\n' :: (indentChars kcl ++ '}' :: rest))) :
    parseMembers (f + 1)
        ('\n' :: memberText k key payload ('\n' :: (indentChars kcl ++ '}' :: rest))) =
      some ([(key, v)], rest) :=
  parseMembers_step_last f _ _ _ _ _ _ _ _
    (skipWs_memberText k key payload _)
    (parseStringBody_safe _ _ hkey)
    (skipWs_not ':' _ rfl) hv (skipWs_close kcl rest)

/-! ### Round-trip lemmas: printed values -/

theorem printValue_num (k n : Nat) : printValue k (Json.num n) = natChars n := by
  simp [printValue]

theorem printValue_str (k : Nat) (s : String) :
    printValue k (Json.str s) = '"' :: (escapeStr s.data ++ ['"']) := by
  simp [printValue]

theorem printValue_true (k : Nat) :
    printValue k (Json.bool true) = ['t', 'r', 'u', 'e'] := by
  simp [printValue]

theorem value_premise_num (k n : Nat) :
    ∀ (g : Nat) (cs rest : List Char),
      skipWs cs = skipWs (printValue k (Json.num n) ++ rest) →
      noLeadDigit rest = true → parseValue (g + 1) cs = some (Json.num n, rest) := by
  intro g cs rest hcs hrest
  rw [printValue_num] at hcs
  obtain ⟨c, ds, hsplit⟩ : ∃ c ds, natChars n = c :: ds := by
    cases hnc : natChars n with
    | nil => exact absurd hnc (natChars_props n).1
    | cons c ds => exact ⟨c, ds, rfl⟩
  have hdig : isDigitChar c = true := ((natChars_props n).2 c (by rw [hsplit]; simp)).1
  have hw : isWsChar c = false := (digit_facts c hdig).2.2.2.2.2
  have hskip : skipWs (natChars n ++ rest) = natChars n ++ rest := by
    rw [hsplit, List.cons_append, skipWs_not c _ hw]
  exact parseValue_step_num g cs n rest (by rw [hcs, hskip]) hrest

theorem value_premise_str (k : Nat) (s : String) (hs : ∀ c ∈ s.data, SafeChar c) :
    ∀ (g : Nat) (cs rest : List Char),
      skipWs cs = skipWs (printValue k (Json.str s) ++ rest) →
      noLeadDigit rest = true → parseValue (g + 1) cs = some (Json.str s, rest) := by
  intro g cs rest hcs _
  rw [printValue_str, escapeStr_safe s.data hs] at hcs
  have htext : ('"' :: (s.data ++ ['"'])) ++ rest = '"' :: (s.data ++ '"' :: rest) := by
    simp
  rw [htext, skipWs_not '"' _ rfl] at hcs
  exact parseValue_step_str g cs s.data rest hs hcs

theorem value_premise_true (k : Nat) :
    ∀ (g : Nat) (cs rest : List Char),
      skipWs cs = skipWs (printValue k (Json.bool true) ++ rest) →
      noLeadDigit rest = true → parseValue (g + 1) cs = some (Json.bool true, rest) := by
  intro g cs rest hcs _
  rw [printValue_true] at hcs
  have htext : (['t', 'r', 'u', 'e'] : List Char) ++ rest = 't' :: 'r' :: 'u' :: 'e' :: rest := rfl
  rw [htext, skipWs_not 't' _ rfl] at hcs
  exact parseValue_step_true g cs rest hcs

/-! ### Round-trip: three-member objects -/

theorem parse_print_obj3 (f k : Nat) (k1 k2 k3 : String) (v1 v2 v3 : Json)
    (hk1 : ∀ c ∈ k1.data, SafeChar c) (hk2 : ∀ c ∈ k2.data, SafeChar c)
    (hk3 : ∀ c ∈ k3.data, SafeChar c)
    (hv1 : ∀ (g : Nat) (cs rest : List Char),
      skipWs cs = skipWs (printValue (k + 1) v1 ++ rest) →
      noLeadDigit rest = true → parseValue (g + 1) cs = some (v1, rest))
    (hv2 : ∀ (g : Nat) (cs rest : List Char),
      skipWs cs = skipWs (printValue (k + 1) v2 ++ rest) →
      noLeadDigit rest = true → parseValue (g + 1) cs = some (v2, rest))
    (hv3 : ∀ (g : Nat) (cs rest : List Char),
      skipWs cs = skipWs (printValue (k + 1) v3 ++ rest) →
      noLeadDigit rest = true → parseValue (g + 1) cs = some (v3, rest))
    (rest : List Char) :
    parseValue (f + 7) (printValue k (Json.obj [(k1, v1), (k2, v2), (k3, v3)]) ++ rest) =
      some (Json.obj [(k1, v1), (k2, v2), (k3, v3)], rest) := by
  have hprint : printValue k (Json.obj [(k1, v1), (k2, v2), (k3, v3)]) ++ rest =
      '{' :: '\n' :: memberText (k + 1) k1 (printValue (k + 1) v1) (',' :: '\n' ::
        memberText (k + 1) k2 (printValue (k + 1) v2) (',' :: '\n' ::
          memberText (k + 1) k3 (printValue (k + 1) v3)
            ('\n' :: (indentChars k ++ '}' :: rest)))) := by
    simp [printValue, printMembers, printMember, memberText,
      escapeStr_safe _ hk1, escapeStr_safe _ hk2, escapeStr_safe _ hk3]
  rw [hprint]
  have h3 : parseMembers (f + 4) ('\n' :: memberText (k + 1) k3 (printValue (k + 1) v3)
      ('\n' :: (indentChars k ++ '}' :: rest))) = some ([(k3, v3)], rest) :=
    parseMembers_text_last (f + 3) (k + 1) k k3 hk3 v3 _ rest
      (hv3 (f + 2) _ _ (skipWs_ws ' ' _ rfl) rfl)
  have h2 : parseMembers (f + 5) ('\n' :: memberText (k + 1) k2 (printValue (k + 1) v2)
      (',' :: '\n' :: memberText (k + 1) k3 (printValue (k + 1) v3)
        ('\n' :: (indentChars k ++ '}' :: rest)))) =
      some ([(k2, v2), (k3, v3)], rest) :=
    parseMembers_text_cons (f + 4) (k + 1) k2 hk2 v2 _ _ rest _
      (hv2 (f + 3) _ _ (skipWs_ws ' ' _ rfl) rfl) h3
  have h1 : parseMembers (f + 6) ('\n' :: memberText (k + 1) k1 (printValue (k + 1) v1)
      (',' :: '\n' :: memberText (k + 1) k2 (printValue (k + 1) v2)
        (',' :: '\n' :: memberText (k + 1) k3 (printValue (k + 1) v3)
          ('\n' :: (indentChars k ++ '}' :: rest))))) =
      some ([(k1, v1), (k2, v2), (k3, v3)], rest) :=
    parseMembers_text_cons (f + 5) (k + 1) k1 hk1 v1 _ _ rest _
      (hv1 (f + 4) _ _ (skipWs_ws ' ' _ rfl) rfl) h2
  exact parseValue_step_obj (f + 6) _ _ _ rest _ (skipWs_not '{' _ rfl)
    (skipWs_memberText (k + 1) k1 _ _) h1

theorem parse_print_obj3_outer (f k : Nat) (k1 k2 k3 : String) (v1 v2 v3 : Json)
    (hk1 : ∀ c ∈ k1.data, SafeChar c) (hk2 : ∀ c ∈ k2.data, SafeChar c)
    (hk3 : ∀ c ∈ k3.data, SafeChar c)
    (hv1 : ∀ (g : Nat) (cs rest : List Char),
      skipWs cs = skipWs (printValue (k + 1) v1 ++ rest) →
      noLeadDigit rest = true → parseValue (g + 1) cs = some (v1, rest))
    (hv2 : ∀ (g : Nat) (cs rest : List Char),
      skipWs cs = skipWs (printValue (k + 1) v2 ++ rest) →
      noLeadDigit rest = true → parseValue (g + 1) cs = some (v2, rest))
    (hv3 : ∀ (g : Nat) (cs rest : List Char),
      skipWs cs = skipWs (printValue (k + 1) v3 ++ rest) →
      noLeadDigit rest = true → parseValue (g + 7) cs = some (v3, rest))
    (rest : List Char) :
    parseValue (f + 13) (printValue k (Json.obj [(k1, v1), (k2, v2), (k3, v3)]) ++ rest) =
      some (Json.obj [(k1, v1), (k2, v2), (k3, v3)], rest) := by
  have hprint : printValue k (Json.obj [(k1, v1), (k2, v2), (k3, v3)]) ++ rest =
      '{' :: '\n' :: memberText (k + 1) k1 (printValue (k + 1) v1) (',' :: '\n' ::
        memberText (k + 1) k2 (printValue (k + 1) v2) (',' :: '\n' ::
          memberText (k + 1) k3 (printValue (k + 1) v3)
            ('\n' :: (indentChars k ++ '}' :: rest)))) := by
    simp [printValue, printMembers, printMember, memberText,
      escapeStr_safe _ hk1, escapeStr_safe _ hk2, escapeStr_safe _ hk3]
  rw [hprint]
  have h3 : parseMembers (f + 10) ('\n' :: memberText (k + 1) k3 (printValue (k + 1) v3)
      ('\n' :: (indentChars k ++ '}' :: rest))) = some ([(k3, v3)], rest) :=
    parseMembers_text_last (f + 9) (k + 1) k k3 hk3 v3 _ rest
      (hv3 (f + 2) _ _ (skipWs_ws ' ' _ rfl) rfl)
  have h2 : parseMembers (f + 11) ('\n' :: memberText (k + 1) k2 (printValue (k + 1) v2)
      (',' :: '\n' :: memberText (k + 1) k3 (printValue (k + 1) v3)
        ('\n' :: (indentChars k ++ '}' :: rest)))) =
      some ([(k2, v2), (k3, v3)], rest) :=
    parseMembers_text_cons (f + 10) (k + 1) k2 hk2 v2 _ _ rest _
      (hv2 (f + 9) _ _ (skipWs_ws ' ' _ rfl) rfl) h3
  have h1 : parseMembers (f + 12) ('\n' :: memberText (k + 1) k1 (printValue (k + 1) v1)
      (',' :: '\n' :: memberText (k + 1) k2 (printValue (k + 1) v2)
        (',' :: '\n' :: memberText (k + 1) k3 (printValue (k + 1) v3)
          ('\n' :: (indentChars k ++ '}' :: rest))))) =
      some ([(k1, v1), (k2, v2), (k3, v3)], rest) :=
    parseMembers_text_cons (f + 11) (k + 1) k1 hk1 v1 _ _ rest _
      (hv1 (f + 10) _ _ (skipWs_ws ' ' _ rfl) rfl) h2
  exact parseValue_step_obj (f + 12) _ _ _ rest _ (skipWs_not '{' _ rfl)
    (skipWs_memberText (k + 1) k1 _ _) h1

/-! ### Round-trip: the full result record -/

theorem parse_result_json (msg now : String) (L n : Nat)
    (hmsg : ∀ c ∈ msg.data, SafeChar c) (hnow : ∀ c ∈ now.data, SafeChar c)
    (f : Nat) (rest : List Char) :
    parseValue (f + 13) (printValue 0 (ProcessResult.toJson
        ⟨true, msg, some (Json.obj [("length", Json.num L),
          ("processed_at", Json.str now), ("item_number", Json.num n)])⟩) ++ rest) =
      some (ProcessResult.toJson
        ⟨true, msg, some (Json.obj [("length", Json.num L),
          ("processed_at", Json.str now), ("item_number", Json.num n)])⟩, rest) := by
  refine parse_print_obj3_outer f 0 "success" "message" "data" (Json.bool true)
    (Json.str msg) _ (by decide) (by decide) (by decide)
    (value_premise_true 1) (value_premise_str 1 msg hmsg) ?_ rest
  intro g cs rest' hcs _
  refine (parseValue_skipWs (g + 6) cs _ hcs).trans ?_
  exact parse_print_obj3 g 1 "length" "processed_at" "item_number" _ _ _
    (by decide) (by decide) (by decide)
    (value_premise_num 2 L) (value_premise_str 2 now hnow) (value_premise_num 2 n)
    rest'

theorem fromJson_toJson3 (b : Bool) (m : String) (flds : List (String × Json)) :
    ProcessResult.fromJson (ProcessResult.toJson ⟨b, m, some (Json.obj flds)⟩) =
      Except.ok ⟨b, m, some (Json.obj flds)⟩ := by
  simp [ProcessResult.toJson, ProcessResult.fromJson, lookupField]

theorem from_str_roundtrip (msg now : String) (L n : Nat)
    (hmsg : ∀ c ∈ msg.data, SafeChar c) (hnow : ∀ c ∈ now.data, SafeChar c) :
    ProcessResult.from_str (to_string_pretty (ProcessResult.toJson
        ⟨true, msg, some (Json.obj [("length", Json.num L),
          ("processed_at", Json.str now), ("item_number", Json.num n)])⟩)) =
      Except.ok ⟨true, msg, some (Json.obj [("length", Json.num L),
        ("processed_at", Json.str now), ("item_number", Json.num n)])⟩ := by
  have hlen : 12 ≤ (printValue 0 (ProcessResult.toJson
      ⟨true, msg, some (Json.obj [("length", Json.num L),
        ("processed_at", Json.str now), ("item_number", Json.num n)])⟩)).length := by
    simp [ProcessResult.toJson, printValue, printMembers, printMember, indentChars]
    omega
  have hparse := parse_result_json msg now L n hmsg hnow
    ((printValue 0 (ProcessResult.toJson
      ⟨true, msg, some (Json.obj [("length", Json.num L),
        ("processed_at", Json.str now), ("item_number", Json.num n)])⟩)).length - 12) []
  rw [List.append_nil] at hparse
  rw [show (printValue 0 (ProcessResult.toJson
      ⟨true, msg, some (Json.obj [("length", Json.num L),
        ("processed_at", Json.str now), ("item_number", Json.num n)])⟩)).length - 12 + 13 =
      (printValue 0 (ProcessResult.toJson
      ⟨true, msg, some (Json.obj [("length", Json.num L),
        ("processed_at", Json.str now), ("item_number", Json.num n)])⟩)).length + 1
    by omega] at hparse
  simp only [ProcessResult.from_str, to_string_pretty, parseJsonText]
  rw [hparse]
  exact fromJson_toJson3 true msg _

/-- Every character of a message `process` builds is safe: the literal prefix
contains no quote, backslash or control character, and the appended count is
all decimal digits. -/
theorem message_safe (n : Nat) :
    ∀ c ∈ ("Successfully processed item #" ++ natStr n).data, SafeChar c := by
  have hlit : ∀ c ∈ "Successfully processed item #".data, SafeChar c := by decide
  intro c hc
  rw [String.data_append] at hc
  rcases List.mem_append.mp hc with h | h
  · exact hlit c h
  · exact (((natChars_props n).2) c h).2

/-- C8: when `run` is given an output path (and the input resolves), the text
written to the file is exactly the pretty-printed serialization of the
`ProcessResult` that `process` returned, and deserializing that text yields a
`ProcessResult` equal to the one `process` returned (serialize then
deserialize is the identity on the results this program produces). The clock
string is required not to contain characters the JSON printer would escape;
RFC 3339 timestamps never do. -/
theorem claim_serialize_roundtrip (v : Bool) (input : Option String) (path : String)
    (fs : String → Option String) (now : String) (input_data : String)
    (hin : resolveInput input fs = Except.ok input_data)
    (hnow : ∀ c ∈ now.data, SafeChar c) :
    ∃ r p', (WorkflowEngineProcessor.new v).process input_data now = Except.ok (r, p') ∧
      run v input (some path) fs now =
        (Except.ok (), [OutputEvent.fileWrite path (to_string_pretty r.toJson)]) ∧
      ProcessResult.from_str (to_string_pretty r.toJson) = Except.ok r := by
  refine ⟨_, _, rfl, ?_, ?_⟩
  · simp [run, hin, WorkflowEngineProcessor.process]
  · exact from_str_roundtrip _ now _ _ (message_safe _) hnow

theorem claim_serialize_roundtrip_witness :
    ∃ r p', (WorkflowEngineProcessor.new false).process defaultInputText
        "2024-01-01T00:00:00+00:00" = Except.ok (r, p') ∧
      run false none (some "out.json") (fun _ => none) "2024-01-01T00:00:00+00:00" =
        (Except.ok (), [OutputEvent.fileWrite "out.json" (to_string_pretty r.toJson)]) ∧
      ProcessResult.from_str (to_string_pretty r.toJson) = Except.ok r :=
  claim_serialize_roundtrip false none "out.json" (fun _ => none)
    "2024-01-01T00:00:00+00:00" defaultInputText rfl (by decide)

end WorkflowEngine
